import Mathlib

/-!
# Verification of the pureimage 2D software rasterizer

Shallow embedding of the rasterization core (`src/context.ts`, `src/bitmap.ts`,
`src/Gradient.ts`) of the `node-pureimage` repository.

Conventions used throughout this development:

* JavaScript numbers are modelled as exact rationals (`ℚ`); the one operation
  that leaves `ℚ` (the square root inside `Point.distance`, used by the radial
  gradient) is modelled over `ℝ`.
* JavaScript `undefined` flowing through a variable of point type is modelled
  by `Option Point`.
* Mutation of an object is modelled by returning the updated value.
* The helper modules `uint32.ts`, `transform.ts`, `Point.ts`, `util.ts` and
  `named_colors.ts` are not part of the sources; the definitions translated
  from them carry a doc comment starting with `Modelled from the spec:`.

The file is organized as definitions first, then theorems.
-/

namespace PureImage

/-- Modelled from the spec: `uint32.getBytesBigEndian` (missing `uint32.ts`).
Spec §6: a pixel is a single 32-bit integer in big-endian channel order
`0xRRGGBBAA`; the four bytes are extracted most-significant first. -/
def getBytesBigEndian (n : ℕ) : List ℕ :=
  [n / 2 ^ 24 % 256, n / 2 ^ 16 % 256, n / 2 ^ 8 % 256, n % 256]

/-- Modelled from the spec: `uint32.fromBytesBigEndian` (missing `uint32.ts`).
Spec §6/§8: packs four bytes big-endian into one 32-bit integer, the
round-trip inverse of `getBytesBigEndian`.  JavaScript bitwise packing
truncates a fractional input toward zero; every call site passes nonnegative
values, where truncation toward zero coincides with `Int.floor`. -/
def fromBytesBigEndian {α : Type} [LinearOrderedField α] [FloorRing α]
    (b0 b1 b2 b3 : α) : ℕ :=
  (⌊b0⌋.toNat % 256) * 2 ^ 24 + (⌊b1⌋.toNat % 256) * 2 ^ 16 +
    (⌊b2⌋.toNat % 256) * 2 ^ 8 + ⌊b3⌋.toNat % 256

/-- `clamp` as defined at the bottom of `context.ts` (an identical copy lives
in the missing `util.ts`). -/
def clamp {α : Type} [LinearOrder α] (value mn mx : α) : α :=
  if value < mn then mn else if value > mx then mx else value

/-- `lerp` as defined at the bottom of `context.ts` (an identical copy lives
in the missing `util.ts`): `a + (b - a) * t`. -/
def lerp {α : Type} [Ring α] (a b t : α) : α :=
  a + (b - a) * t

/-- Modelled from the spec: `Point` (missing `Point.ts`), spec §3:
`(x : float, y : float)`, a value type. -/
structure Point where
  x : ℚ
  y : ℚ
deriving DecidableEq, Repr

/-- The `Bitmap` class of `bitmap.ts`: a `width × height` RGBA8888 buffer.
`data` models the `Buffer` of bytes (length `width * height * 4`); an
assignment past the end of a JavaScript `Buffer` is silently dropped, which
`List.set` reproduces. -/
structure Bitmap where
  width : ℤ
  height : ℤ
  data : List ℕ
deriving DecidableEq, Repr

/-- `Bitmap.calculateIndex`: floors the coordinates, returns `0` for any
out-of-range coordinate, and otherwise the byte offset of the pixel.  No
error is ever raised. -/
def Bitmap.calculateIndex (bmp : Bitmap) (x y : ℚ) : ℤ :=
  let x := ⌊x⌋
  let y := ⌊y⌋
  if x < 0 ∨ y < 0 ∨ bmp.width ≤ x ∨ bmp.height ≤ y then 0
  else (bmp.width * y + x) * 4

/-- `Bitmap.setPixelRGBA`: writes the four big-endian bytes of `rgba` at the
index computed by `calculateIndex`. -/
def Bitmap.setPixelRGBA (bmp : Bitmap) (x y : ℚ) (rgba : ℕ) : Bitmap :=
  let i := (bmp.calculateIndex x y).toNat
  let bytes := getBytesBigEndian rgba
  { bmp with data :=
      ((((bmp.data.set i (bytes.getD 0 0)).set (i + 1) (bytes.getD 1 0)).set
        (i + 2) (bytes.getD 2 0)).set (i + 3) (bytes.getD 3 0)) }

/-- `Bitmap.getPixelRGBA`: reads four bytes at the index computed by
`calculateIndex` and packs them big-endian. -/
def Bitmap.getPixelRGBA (bmp : Bitmap) (x y : ℚ) : ℕ :=
  let i := (bmp.calculateIndex x y).toNat
  fromBytesBigEndian ((bmp.data.getD i 0 : ℚ)) ((bmp.data.getD (i + 1) 0 : ℚ))
    ((bmp.data.getD (i + 2) 0 : ℚ)) ((bmp.data.getD (i + 3) 0 : ℚ))

/-- The inner `compit` function of `Context.composite`: standard SRC_OVER
for one channel.  In `ℚ`, division by `0` yields `0`.  Caveat of the exact
model: for a transparent source over a partially opaque destination this
expression cancels to `cb` exactly (`(cb * ab) / ab = cb`), whereas the
source's IEEE evaluation of the same expression only approximates `cb` (for
destination bytes 3/3 it yields `2.9999999999999996`, which the bitwise
repack truncates to `2`).  No theorem below relies on that cancellation: the
compositing identities proved about `composite` are restricted to the
branches whose IEEE evaluation is exact. -/
def compit (ca cb aa ab : ℚ) : ℚ :=
  (ca * aa + cb * ab * (1 - aa)) / (aa + ab * (1 - aa))

/-- `Context.composite`: normalizes both pixels to `[0,1]` channels, scales
the source alpha by the context's global alpha, maps `compit` over the four
channels (the source's `A.map((comp, i) => compit(A[i], B[i], A[3], B[3]))`
is unrolled into the four explicit channels), rescales to `[0,255]` and
repacks.  The `ℚ` convention `0 / 0 = 0` coincides with the end-to-end
JavaScript behaviour on this path: there `0/0` gives `NaN`, and the bitwise
packing of `fromBytesBigEndian` coerces `NaN` to the byte `0`. -/
def composite (globalAlpha : ℚ) (old_pixel new_pixel : ℕ) : ℕ :=
  let old_rgba := getBytesBigEndian old_pixel
  let new_rgba := getBytesBigEndian new_pixel
  -- convert to range of 0->1; multiply the source alpha by the global alpha
  let a0 : ℚ := (new_rgba.getD 0 0 : ℚ) / 255
  let a1 : ℚ := (new_rgba.getD 1 0 : ℚ) / 255
  let a2 : ℚ := (new_rgba.getD 2 0 : ℚ) / 255
  let a3 : ℚ := (new_rgba.getD 3 0 : ℚ) / 255 * globalAlpha
  let b0 : ℚ := (old_rgba.getD 0 0 : ℚ) / 255
  let b1 : ℚ := (old_rgba.getD 1 0 : ℚ) / 255
  let b2 : ℚ := (old_rgba.getD 2 0 : ℚ) / 255
  let b3 : ℚ := (old_rgba.getD 3 0 : ℚ) / 255
  -- do a standard composite (SRC_OVER), convert back to 0->255, repack
  fromBytesBigEndian (compit a0 b0 a3 b3 * 255) (compit a1 b1 a3 b3 * 255)
    (compit a2 b2 a3 b3 * 255) (compit a3 b3 a3 b3 * 255)

/-- Modelled from the spec: `Line` (missing `Line.ts`), spec §3:
`(start : Point, end : Point)`. -/
structure Line where
  start : Point
  «end» : Point
deriving DecidableEq, Repr

/-- `calcSortedIntersections` of `context.ts`: for every line segment with
exactly one endpoint strictly below the scanline `y` and the other at or
above it, the linearly interpolated crossing abscissa is collected, and the
collected list is sorted ascending (the source's `xlist.sort((a, b) => a - b)`
is rendered with `List.mergeSort`; only the multiset of values matters to the
callers treated here). -/
def calcSortedIntersections (lines : List Line) (y : ℚ) : List ℚ :=
  let xlist := lines.filterMap (fun l =>
    let A := l.start
    let B := l.«end»
    if (A.y < y ∧ y ≤ B.y) ∨ (B.y < y ∧ y ≤ A.y) then
      some (A.x + (y - A.y) / (B.y - A.y) * (B.x - A.x))
    else none)
  xlist.mergeSort (fun a b => decide (a ≤ b))

/-- `Context.pixelInsideClip`, abstracted over the `_clip` field it reads:
even-odd test counting the sorted intersections strictly left of `x`;
with no clip set, every point is inside. -/
def pixelInsideClip (clip : Option (List Line)) (x y : ℚ) : Bool :=
  match clip with
  | none => true
  | some lines =>
    let ints := calcSortedIntersections lines y
    let left := ints.filter (fun inter => decide (inter < x))
    decide (left.length % 2 ≠ 0)

/-- The crossing count in the words of the specification (§4.8): the number
of intersections of the clip boundary with the horizontal line at `y` whose
intersection x-coordinate is strictly less than `x` (a segment intersects the
scanline when exactly one endpoint lies strictly below it, spec §4.4). -/
def clipCrossingsLeft (lines : List Line) (x y : ℚ) : ℕ :=
  (lines.filterMap (fun l =>
    if (l.start.y < y ∧ y ≤ l.«end».y) ∨ (l.«end».y < y ∧ y ≤ l.start.y) then
      some (l.start.x + (y - l.start.y) / (l.«end».y - l.start.y) * (l.«end».x - l.start.x))
    else none)).countP (fun xv => decide (xv < x))

/-- The `PATH_COMMAND` variants of `context.ts` together with their stored
points.  A `LINE` command records the point `closePath` read from
`this.pathstart`, which is JavaScript-`undefined` (here `none`) when no
`moveTo` ever ran; every other producer of a `LINE` command stores a real
point. -/
inductive PathCmd where
  | move (p : Point)
  | line (p : Option Point)
  | quadratic (cp p : Point)
  | bezier (cp1 cp2 p : Point)
deriving DecidableEq, Repr

/-- `calcQuadraticAtT` of `context.ts` (the source receives the three control
points as an array `p`): the standard quadratic Bezier formula. -/
def calcQuadraticAtT (p0 p1 p2 : Point) (t : ℚ) : Point :=
  ⟨(1 - t) * (1 - t) * p0.x + 2 * (1 - t) * t * p1.x + t * t * p2.x,
   (1 - t) * (1 - t) * p0.y + 2 * (1 - t) * t * p1.y + t * t * p2.y⟩

/-- The `t` values visited by the `for (let t = 0; t < 1; t += 0.1)` loop of
the quadratic case of `pathToLines`, starting from `t`.  JavaScript numbers
are modelled as exact rationals, for which the loop starting at `0` visits
exactly `0, 0.1, …, 0.9`. -/
def quadTs (t : ℚ) : List ℚ :=
  if h : t < 1 then t :: quadTs (t + 1 / 10) else []
termination_by (⌈(1 - t) * 10⌉).toNat
decreasing_by
  have h1 : ⌈(1 - (t + 1 / 10)) * 10⌉ = ⌈(1 - t) * 10⌉ - 1 := by
    rw [show (1 - (t + 1 / 10)) * 10 = (1 - t) * 10 - 1 by ring, Int.ceil_sub_one]
  have h2 : 0 < ⌈(1 - t) * 10⌉ := Int.ceil_pos.mpr (by linarith)
  omega

/-- The quadratic branch of `pathToLines`: the control polygon
`pts = [curr, cp, pt]` is fixed at entry, each visited `t` pushes
`Line(curr, calcQuadraticAtT(pts, t))` and advances `curr`.  Returns the
final current point together with the pushed segments. -/
def quadFlatten (curr cp pt : Point) : Point × List Line :=
  (quadTs 0).foldl
    (fun st t =>
      let p := calcQuadraticAtT curr cp pt t
      (p, st.2 ++ [⟨st.1, p⟩]))
    (curr, [])

/-- The `IPointCurve` tuple of `context.ts`: a cubic's start point, two
control points and end point. -/
structure Cubic where
  p1 : Point
  p2 : Point
  p3 : Point
  p4 : Point
deriving DecidableEq, Repr

/-- `midpoint` of `context.ts`: the point at parameter `t` between `p1` and
`p2`. -/
def midpoint (p1 p2 : Point) (t : ℚ) : Point :=
  ⟨(p2.x - p1.x) * t + p1.x, (p2.y - p1.y) * t + p1.y⟩

/-- `splitCurveAtT` of `context.ts` (the unused `debug` parameter is
dropped).  The source computes `p34` as `midpoint(p4, p3, t)` with the
arguments in that swapped order; at the only call site `t = 1/2` this
coincides with `midpoint p3 p4`. -/
def splitCurveAtT (p : Cubic) (t : ℚ) : Cubic × Cubic :=
  let p1 := p.p1
  let p2 := p.p2
  let p3 := p.p3
  let p4 := p.p4
  let p12 := midpoint p1 p2 t
  let p23 := midpoint p2 p3 t
  let p34 := midpoint p4 p3 t
  let p123 := midpoint p12 p23 t
  let p234 := midpoint p23 p34 t
  let p1234 : Point := ⟨(p234.x - p123.x) * t + p123.x, (p234.y - p123.y) * t + p123.y⟩
  (⟨p1, p12, p123, p1234⟩, ⟨p1234, p234, p34, p4⟩)

/-- `flatness` of `context.ts`: the maximum of two symmetric squared
deviation measures per axis, summed over the two axes (the `if` statements
reproduce the source's in-place maximum computation). -/
def flatness (curve : Cubic) : ℚ :=
  let pointA := curve.p1
  let controlPointA := curve.p2
  let controlPointB := curve.p3
  let pointB := curve.p4
  let ux := (3 * controlPointA.x - 2 * pointA.x - pointB.x) ^ 2
  let uy := (3 * controlPointA.y - 2 * pointA.y - pointB.y) ^ 2
  let vx := (3 * controlPointB.x - 2 * pointB.x - pointA.x) ^ 2
  let vy := (3 * controlPointB.y - 2 * pointB.y - pointA.y) ^ 2
  let ux := if ux < vx then vx else ux
  let uy := if uy < vy then vy else uy
  ux + uy

/-- The body of the recursive `recurse` helper of `bezierToLines`
(`THRESHOLD = 10`, the value of the only call site in the source), with an
explicit recursion-depth budget as the first argument: `none` means the
budget ran out.  Theorem `bezier_flatten_terminates` proves that the budget
`(⌈flatness curve⌉).toNat + 1` used by `bezierRecurse` below always
suffices — every split at `t = 1/2` divides the flatness measure by at
least 4 (`flatness_split_le`) — so the function below satisfies exactly the
source's unbounded recursion equation. -/
def bezierFuel : ℕ → Cubic → Option (List Point)
  | 0, _ => none
  | n + 1, curve =>
    if flatness curve < 10 then some [curve.p1, curve.p4]
    else
      match bezierFuel n (splitCurveAtT curve (1 / 2)).1,
            bezierFuel n (splitCurveAtT curve (1 / 2)).2 with
      | some l, some r => some (l ++ r)
      | _, _ => none

/-- The `recurse` helper of `bezierToLines`: flat curves yield their chord's
endpoints, other curves are split at `t = 1/2` and both halves are flattened
recursively.  (Realized through `bezierFuel` with a sufficient budget; the
default value of `Option.getD` is never reached, see
`bezier_flatten_terminates`.) -/
def bezierRecurse (curve : Cubic) : List Point :=
  (bezierFuel ((⌈flatness curve⌉).toNat + 1) curve).getD [curve.p1, curve.p4]

/-- `bezierToLines` of `context.ts`: flattens a cubic to the list of polyline
vertices produced by `recurse`. -/
def bezierToLines (curve : Cubic) : List Point :=
  bezierRecurse curve

/-- One step of the `path.forEach` loop of `pathToLines` of `context.ts`.
The state is the current point (`curr`, initially JavaScript `null`, here
`none`) and the collected lines.  In the source, a `LINE` command reached
with no current point, or a curve command reached with no current point,
builds a `Line` with a non-point member or dereferences `null`; such
degenerate segments are not representable with rational endpoints and are
omitted here (the claims treated below never reach those states). -/
def pathToLinesStep (st : Option Point × List Line) (cmd : PathCmd) :
    Option Point × List Line :=
  match cmd with
  | .move p => (some p, st.2)
  | .line p? =>
    match st.1, p? with
    | some c, some p => (some p, st.2 ++ [⟨c, p⟩])
    | _, _ => (p?, st.2)
  | .quadratic cp p =>
    match st.1 with
    | some c =>
      let r := quadFlatten c cp p
      (some r.1, st.2 ++ r.2)
    | none => (none, st.2)
  | .bezier cp1 cp2 p =>
    match st.1 with
    | some c =>
      let r := (bezierToLines ⟨c, cp1, cp2, p⟩).foldl
        (fun st2 pt => (pt, st2.2 ++ [⟨st2.1, pt⟩])) (c, st.2)
      (some r.1, r.2)
    | none => (none, st.2)

/-- `pathToLines` of `context.ts`: folds the command list into a line list. -/
def pathToLines (path : List PathCmd) : List Line :=
  (path.foldl pathToLinesStep (none, [])).2

/-- Modelled from the spec: the 2D affine matrix held by `transform.ts`
(missing).  A point maps to `(a x + c y + e, b x + d y + f)`. -/
structure TMatrix where
  a : ℚ
  b : ℚ
  c : ℚ
  d : ℚ
  e : ℚ
  f : ℚ
deriving DecidableEq, Repr

/-- Modelled from the spec: application of the matrix to a point. -/
def TMatrix.transformPoint (m : TMatrix) (p : Point) : Point :=
  ⟨m.a * p.x + m.c * p.y + m.e, m.b * p.x + m.d * p.y + m.f⟩

/-- Modelled from the spec: matrix composition; `m.comp n` applies `n` to a
point first and `m` afterwards, the canvas convention for composing a new
operation onto the current transform (spec §4.2). -/
def TMatrix.comp (m n : TMatrix) : TMatrix :=
  ⟨m.a * n.a + m.c * n.b, m.b * n.a + m.d * n.b,
   m.a * n.c + m.c * n.d, m.b * n.c + m.d * n.d,
   m.a * n.e + m.c * n.f + m.e, m.b * n.e + m.d * n.f + m.f⟩

/-- Modelled from the spec: the identity matrix, the initial transform. -/
def TMatrix.identity : TMatrix := ⟨1, 0, 0, 1, 0, 0⟩

/-- Modelled from the spec: `Transform` of the missing `transform.ts` — the
current matrix plus the LIFO stack of saved matrices (spec §3, §4.2). -/
structure Transform where
  matrix : TMatrix
  stack : List TMatrix
deriving DecidableEq, Repr

/-- Modelled from the spec: the freshly constructed transform. -/
def Transform.init : Transform := ⟨TMatrix.identity, []⟩

/-- Modelled from the spec §4.2: `translate(dx, dy)` composes a translation
onto the current transform. -/
def Transform.translate (t : Transform) (dx dy : ℚ) : Transform :=
  { t with matrix := t.matrix.comp ⟨1, 0, 0, 1, dx, dy⟩ }

/-- Modelled from the spec §4.2: `rotate(radians)` composes a rotation onto
the current transform.  The sine and cosine of an arbitrary angle are not
rational, so the embedding receives the pair `(cos θ, sin θ)` in place of the
angle; none of the properties below depends on the numeric values. -/
def Transform.rotate (t : Transform) (cosA sinA : ℚ) : Transform :=
  { t with matrix := t.matrix.comp ⟨cosA, sinA, -sinA, cosA, 0, 0⟩ }

/-- Modelled from the spec §4.2: `scale(sx, sy)` composes a scaling onto the
current transform. -/
def Transform.scale (t : Transform) (sx sy : ℚ) : Transform :=
  { t with matrix := t.matrix.comp ⟨sx, 0, 0, sy, 0, 0⟩ }

/-- Modelled from the spec §4.2: `transformPoint` is pure and does not touch
the stack. -/
def Transform.transformPoint (t : Transform) (p : Point) : Point :=
  t.matrix.transformPoint p

/-- Modelled from the spec §4.2: `save()` pushes a copy of the current
matrix. -/
def Transform.save (t : Transform) : Transform :=
  { t with stack := t.matrix :: t.stack }

/-- Modelled from the spec §4.2: `restore()` pops if the stack is non-empty,
else does nothing. -/
def Transform.restore (t : Transform) : Transform :=
  match t.stack with
  | [] => t
  | m :: rest => ⟨m, rest⟩

/-- A colour stop of `Gradient.ts`: `{t, color}`. -/
structure GradientStop where
  t : ℚ
  color : ℕ
deriving DecidableEq, Repr

/-- `LinearGradient` of `Gradient.ts`: start/end points plus stops. -/
structure LinearGradientM where
  x0 : ℚ
  y0 : ℚ
  x1 : ℚ
  y1 : ℚ
  stops : List GradientStop
deriving DecidableEq, Repr

/-- `RadialGradient` of `Gradient.ts`: a single centre point plus stops. -/
structure RadialGradientM where
  x0 : ℚ
  y0 : ℚ
  stops : List GradientStop
deriving DecidableEq, Repr

/-- The `CanvasGradient` values a style can hold: one of the two concrete
gradient subclasses of `Gradient.ts`. -/
inductive CanvasGradientVal where
  | linear (g : LinearGradientM)
  | radial (g : RadialGradientM)
deriving DecidableEq, Repr

/-- The type of `Context._fillColor`: `CanvasGradient | number`. -/
inductive FillColorVal where
  | gradient (g : CanvasGradientVal)
  | color (rgba : ℕ)
deriving DecidableEq, Repr

/-- The argument type of the `fillStyle` setter: `string | CanvasGradient`. -/
inductive StyleVal where
  | str (s : String)
  | grad (g : CanvasGradientVal)

/-- The `IFont` record of `context.ts`: font family and size. -/
structure IFont where
  family : String
  size : ℚ
deriving DecidableEq, Repr

/-- Value of one hexadecimal digit character (helper for the colour parser
below). -/
def hexDigitVal (c : Char) : ℕ :=
  if c.isDigit then c.toNat - '0'.toNat
  else if 'a' ≤ c ∧ c ≤ 'f' then c.toNat - 'a'.toNat + 10
  else if 'A' ≤ c ∧ c ≤ 'F' then c.toNat - 'A'.toNat + 10
  else 0

/-- Modelled from the spec: `colorStringToUint32` of the missing `util.ts`
(spec §6: parser for named colours, `#RRGGBB`, `#RRGGBBAA` and `rgba(...)`
forms).  No claim below depends on the parsed value, so only the hex forms
and `transparent` are interpreted; every other string maps to opaque black. -/
def colorStringToUint32 (s : String) : ℕ :=
  match s.toList with
  | '#' :: rest =>
    if rest.length = 8 then rest.foldl (fun acc c => acc * 16 + hexDigitVal c) 0
    else if rest.length = 6 then
      (rest.foldl (fun acc c => acc * 16 + hexDigitVal c) 0) * 256 + 0xFF
    else 0x000000FF
  | _ =>
    if s = "transparent" then 0x00000000 else 0x000000FF

/-- The `Context` class of `context.ts`: its mutable state, with the field
initializers of the source (`NAMED_COLORS.black = 0x000000FF`).  The source
leaves `path` undefined until `beginPath`; it is initialized to `[]` here,
and the path-related claims only exercise states reachable after
`beginPath`. -/
structure Context where
  bitmap : Bitmap
  _fillColor : FillColorVal := .color 0x000000FF
  _strokeColor : ℕ := 0x000000FF
  _lineWidth : ℚ := 1
  _globalAlpha : ℚ := 1
  transform : Transform := Transform.init
  _font : IFont := ⟨"invalid", 12⟩
  textAlign : String := "start"
  textBaseline : String := "alphabetic"
  imageSmoothingEnabled : Bool := true
  _fillStyle_text : String := ""
  _strokeStyle_text : String := ""
  path : List PathCmd := []
  _clip : Option (List Line) := none
  pathstart : Option Point := none

/-- The `fillStyle` getter: returns the stored style text. -/
def Context.fillStyle (c : Context) : String := c._fillStyle_text

/-- The `fillStyle` setter: a `CanvasGradient` value is stored in
`_fillColor` only; a string is parsed into `_fillColor` and recorded in
`_fillStyle_text`. -/
def Context.setFillStyle (c : Context) (val : StyleVal) : Context :=
  match val with
  | .grad g => { c with _fillColor := .gradient g }
  | .str s => { c with _fillColor := .color (colorStringToUint32 s), _fillStyle_text := s }

/-- `Context.save`: delegates to `transform.save()`. -/
def Context.save (c : Context) : Context := { c with transform := c.transform.save }

/-- `Context.translate`: delegates to `transform.translate`. -/
def Context.translate (c : Context) (x y : ℚ) : Context :=
  { c with transform := c.transform.translate x y }

/-- `Context.rotate`: delegates to `transform.rotate` (see
`Transform.rotate` for the `(cos θ, sin θ)` convention). -/
def Context.rotate (c : Context) (cosA sinA : ℚ) : Context :=
  { c with transform := c.transform.rotate cosA sinA }

/-- `Context.scale`: delegates to `transform.scale`. -/
def Context.scale (c : Context) (sx sy : ℚ) : Context :=
  { c with transform := c.transform.scale sx sy }

/-- `Context.restore`: delegates to `transform.restore()`. -/
def Context.restore (c : Context) : Context := { c with transform := c.transform.restore }

/-- `Context._moveTo`: transforms the point with the current transform,
remembers it as the path start and appends a `MOVE` command. -/
def Context._moveTo (c : Context) (pt : Point) : Context :=
  let pt := c.transform.transformPoint pt
  { c with pathstart := some pt, path := c.path ++ [.move pt] }

/-- `Context.moveTo`. -/
def Context.moveTo (c : Context) (x y : ℚ) : Context := c._moveTo ⟨x, y⟩

/-- `Context._lineTo`: appends a `LINE` command holding the transformed
point. -/
def Context._lineTo (c : Context) (pt : Point) : Context :=
  { c with path := c.path ++ [.line (some (c.transform.transformPoint pt))] }

/-- `Context.lineTo`. -/
def Context.lineTo (c : Context) (x y : ℚ) : Context := c._lineTo ⟨x, y⟩

/-- `Context.quadraticCurveTo`: transforms control and end point, appends a
`QUADRATIC_CURVE` command. -/
def Context.quadraticCurveTo (c : Context) (cp1x cp1y x y : ℚ) : Context :=
  let cp1 := c.transform.transformPoint ⟨cp1x, cp1y⟩
  let pt := c.transform.transformPoint ⟨x, y⟩
  { c with path := c.path ++ [.quadratic cp1 pt] }

/-- `Context._bezierCurveTo`: transforms the three points, appends a
`BEZIER_CURVE` command. -/
def Context._bezierCurveTo (c : Context) (cp1 cp2 pt : Point) : Context :=
  { c with path := c.path ++
      [.bezier (c.transform.transformPoint cp1) (c.transform.transformPoint cp2)
        (c.transform.transformPoint pt)] }

/-- `Context.bezierCurveTo`. -/
def Context.bezierCurveTo (c : Context) (cp1x cp1y cp2x cp2y x y : ℚ) : Context :=
  c._bezierCurveTo ⟨cp1x, cp1y⟩ ⟨cp2x, cp2y⟩ ⟨x, y⟩

/-- `Context.beginPath`: empties the path. -/
def Context.beginPath (c : Context) : Context := { c with path := [] }

/-- `Context.closePath`: unconditionally appends `[LINE, this.pathstart]` —
also when `pathstart` was never set. -/
def Context.closePath (c : Context) : Context :=
  { c with path := c.path ++ [.line c.pathstart] }

/-- `Context.clip`: freezes the flattened current path as the clip set. -/
def Context.clip (c : Context) : Context := { c with _clip := some (pathToLines c.path) }

/-- `Context.pixelInsideClip`, reading the `_clip` field. -/
def Context.pixelInsideClip (c : Context) (x y : ℚ) : Bool :=
  PureImage.pixelInsideClip c._clip x y

/-- A `save()` or `restore()` call on a `Context`. -/
inductive SaveRestoreOp where
  | save
  | restore

/-- Applies one `save`/`restore` call. -/
def applySaveRestore (c : Context) (op : SaveRestoreOp) : Context :=
  match op with
  | .save => c.save
  | .restore => c.restore

/-- Modelled from the spec: `Point.distance` (missing `Point.ts`): Euclidean
distance, the one operation of the model that requires `ℝ`. -/
noncomputable def pointDistance (x0 y0 x1 y1 : ℚ) : ℝ :=
  Real.sqrt (((x1 : ℝ) - (x0 : ℝ)) ^ 2 + ((y1 : ℝ) - (y0 : ℝ)) ^ 2)

/-- `CanvasGradient._lerpStops` of `Gradient.ts`: both of the first two
stops' colours are split into bytes and normalized to `[0,1]`, interpolated
channel-wise at `t`, rescaled by 255 — and then repacked from the first
three interpolated channels with the constant alpha byte `0xFF`.  (The
source indexes `stops[0]` and `stops[1]` unconditionally; with fewer than
two stops it faults, spec §7 declares that case undefined, and the default
stop only keeps this model total.) -/
noncomputable def lerpStops (stops : List GradientStop) (t : ℝ) : ℕ :=
  let first := (getBytesBigEndian (stops.getD 0 ⟨0, 0⟩).color).map (fun b => (b : ℝ) / 255)
  let second := (getBytesBigEndian (stops.getD 1 ⟨0, 0⟩).color).map (fun b => (b : ℝ) / 255)
  let fc := (List.zipWith (fun f s => lerp f s t) first second).map (fun c => c * 255)
  fromBytesBigEndian (fc.getD 0 0) (fc.getD 1 0) (fc.getD 2 0) (255 : ℝ)

/-- `RadialGradient.colorAt` of `Gradient.ts`: distance from the centre,
divided by the fixed constant 10, clamped to `[0,1]`, then stop
interpolation. -/
noncomputable def RadialGradientM.colorAt (g : RadialGradientM) (x y : ℚ) : ℕ :=
  let dist := pointDistance g.x0 g.y0 x y
  let t := clamp (dist / 10) 0 1
  lerpStops g.stops t

/-- The radial gradient colour in the words of the claim: distance from the
centre divided by the fixed constant 10, clamped to `[0,1]`, then the first
two colour stops linearly interpolated channel-wise — all four channels,
the alpha channel included — in `[0,1]` space and converted back to
8-bit. -/
noncomputable def radialColorAtClaim (g : RadialGradientM) (x y : ℚ) : ℕ :=
  let t := clamp (pointDistance g.x0 g.y0 x y / 10) 0 1
  let first := getBytesBigEndian (g.stops.getD 0 ⟨0, 0⟩).color
  let second := getBytesBigEndian (g.stops.getD 1 ⟨0, 0⟩).color
  fromBytesBigEndian
    (lerp ((first.getD 0 0 : ℝ) / 255) ((second.getD 0 0 : ℝ) / 255) t * 255)
    (lerp ((first.getD 1 0 : ℝ) / 255) ((second.getD 1 0 : ℝ) / 255) t * 255)
    (lerp ((first.getD 2 0 : ℝ) / 255) ((second.getD 2 0 : ℝ) / 255) t * 255)
    (lerp ((first.getD 3 0 : ℝ) / 255) ((second.getD 3 0 : ℝ) / 255) t * 255)

/-- The radial gradient colour in the words of the amended claim: as
`radialColorAtClaim`, except that the resulting alpha channel is the
constant 255 regardless of the stops' alpha values. -/
noncomputable def radialColorAtAmended (g : RadialGradientM) (x y : ℚ) : ℕ :=
  let t := clamp (pointDistance g.x0 g.y0 x y / 10) 0 1
  let first := getBytesBigEndian (g.stops.getD 0 ⟨0, 0⟩).color
  let second := getBytesBigEndian (g.stops.getD 1 ⟨0, 0⟩).color
  fromBytesBigEndian
    (lerp ((first.getD 0 0 : ℝ) / 255) ((second.getD 0 0 : ℝ) / 255) t * 255)
    (lerp ((first.getD 1 0 : ℝ) / 255) ((second.getD 1 0 : ℝ) / 255) t * 255)
    (lerp ((first.getD 2 0 : ℝ) / 255) ((second.getD 2 0 : ℝ) / 255) t * 255)
    (255 : ℝ)

/-- A concrete 2×2 bitmap whose pixel (0,0) is `0xAABBCCDD`, used by the
out-of-bounds counterexample and witness. -/
def bmpCE : Bitmap :=
  ⟨2, 2, [0xAA, 0xBB, 0xCC, 0xDD, 0, 0, 0, 0, 0, 0, 0, 0, 0, 0, 0, 0]⟩

/-- A freshly constructed context on a 1×1 bitmap (state right after
`beginPath`: empty path, no start point). -/
def ctxFresh : Context := { bitmap := ⟨1, 1, [0, 0, 0, 0]⟩ }

/-- A radial gradient centred at the origin whose first stop is fully
transparent black and whose second stop is opaque white. -/
def gradCE : RadialGradientM := ⟨0, 0, [⟨0, 0x00000000⟩, ⟨1, 0xFFFFFFFF⟩]⟩

/-! ## Theorems: helper lemmas -/

theorem fromBytesBigEndian_natCast {α : Type} [LinearOrderedField α] [FloorRing α]
    (b0 b1 b2 b3 : ℕ) :
    fromBytesBigEndian (b0 : α) (b1 : α) (b2 : α) (b3 : α) =
      b0 % 256 * 2 ^ 24 + b1 % 256 * 2 ^ 16 + b2 % 256 * 2 ^ 8 + b3 % 256 := by
  simp [fromBytesBigEndian, Int.floor_natCast]

theorem compit_srcA_one (ca cb ab : ℚ) : compit ca cb 1 ab = ca := by
  simp [compit]

theorem ite_lt_eq_max (u v : ℚ) : (if u < v then v else u) = max u v := by
  rcases lt_or_le u v with h | h
  · simp [h, max_eq_right h.le]
  · simp [not_lt.mpr h, max_eq_left h]

theorem flatness_max (c : Cubic) :
    flatness c =
      max ((3 * c.p2.x - 2 * c.p1.x - c.p4.x) ^ 2) ((3 * c.p3.x - 2 * c.p4.x - c.p1.x) ^ 2) +
      max ((3 * c.p2.y - 2 * c.p1.y - c.p4.y) ^ 2) ((3 * c.p3.y - 2 * c.p4.y - c.p1.y) ^ 2) := by
  simp only [flatness, ite_lt_eq_max]

theorem sq_comb_le_max (u v : ℚ) :
    max (((3 * u - v) / 8) ^ 2) ((u / 4) ^ 2) ≤ max (u ^ 2) (v ^ 2) / 4 := by
  rcases le_total (u ^ 2) (v ^ 2) with h | h
  · rw [max_eq_right h]
    apply max_le
    · nlinarith [sq_nonneg (u + v)]
    · nlinarith [sq_nonneg u, sq_nonneg v]
  · rw [max_eq_left h]
    apply max_le
    · nlinarith [sq_nonneg (u + v)]
    · nlinarith [sq_nonneg u]

theorem flatness_split_le (c : Cubic) :
    flatness (splitCurveAtT c (1 / 2)).1 ≤ flatness c / 4 ∧
    flatness (splitCurveAtT c (1 / 2)).2 ≤ flatness c / 4 := by
  obtain ⟨⟨x1, y1⟩, ⟨x2, y2⟩, ⟨x3, y3⟩, ⟨x4, y4⟩⟩ := c
  have hsplit : splitCurveAtT ⟨⟨x1, y1⟩, ⟨x2, y2⟩, ⟨x3, y3⟩, ⟨x4, y4⟩⟩ (1 / 2) =
      (⟨⟨x1, y1⟩, ⟨(x1 + x2) / 2, (y1 + y2) / 2⟩,
        ⟨(x1 + 2 * x2 + x3) / 4, (y1 + 2 * y2 + y3) / 4⟩,
        ⟨(x1 + 3 * x2 + 3 * x3 + x4) / 8, (y1 + 3 * y2 + 3 * y3 + y4) / 8⟩⟩,
       (⟨⟨(x1 + 3 * x2 + 3 * x3 + x4) / 8, (y1 + 3 * y2 + 3 * y3 + y4) / 8⟩,
        ⟨(x2 + 2 * x3 + x4) / 4, (y2 + 2 * y3 + y4) / 4⟩,
        ⟨(x3 + x4) / 2, (y3 + y4) / 2⟩, ⟨x4, y4⟩⟩)) := by
    simp only [splitCurveAtT, midpoint, Prod.mk.injEq, Cubic.mk.injEq, Point.mk.injEq]
    and_intros <;> ring_nf
  rw [hsplit]
  rw [flatness_max, flatness_max, flatness_max]
  constructor
  · have hx1 : (3 * ((x1 + x2) / 2) - 2 * x1 - (x1 + 3 * x2 + 3 * x3 + x4) / 8) ^ 2 =
        ((3 * (3 * x2 - 2 * x1 - x4) - (3 * x3 - 2 * x4 - x1)) / 8) ^ 2 := by ring
    have hx2 : (3 * ((x1 + 2 * x2 + x3) / 4) - 2 * ((x1 + 3 * x2 + 3 * x3 + x4) / 8) - x1) ^ 2 =
        ((3 * x2 - 2 * x1 - x4) / 4) ^ 2 := by ring
    have hy1 : (3 * ((y1 + y2) / 2) - 2 * y1 - (y1 + 3 * y2 + 3 * y3 + y4) / 8) ^ 2 =
        ((3 * (3 * y2 - 2 * y1 - y4) - (3 * y3 - 2 * y4 - y1)) / 8) ^ 2 := by ring
    have hy2 : (3 * ((y1 + 2 * y2 + y3) / 4) - 2 * ((y1 + 3 * y2 + 3 * y3 + y4) / 8) - y1) ^ 2 =
        ((3 * y2 - 2 * y1 - y4) / 4) ^ 2 := by ring
    rw [hx1, hx2, hy1, hy2]
    have hbx := sq_comb_le_max (3 * x2 - 2 * x1 - x4) (3 * x3 - 2 * x4 - x1)
    have hby := sq_comb_le_max (3 * y2 - 2 * y1 - y4) (3 * y3 - 2 * y4 - y1)
    linarith
  · have hx1 : (3 * ((x2 + 2 * x3 + x4) / 4) - 2 * ((x1 + 3 * x2 + 3 * x3 + x4) / 8) - x4) ^ 2 =
        ((3 * x3 - 2 * x4 - x1) / 4) ^ 2 := by ring
    have hx2 : (3 * ((x3 + x4) / 2) - 2 * x4 - (x1 + 3 * x2 + 3 * x3 + x4) / 8) ^ 2 =
        ((3 * (3 * x3 - 2 * x4 - x1) - (3 * x2 - 2 * x1 - x4)) / 8) ^ 2 := by ring
    have hy1 : (3 * ((y2 + 2 * y3 + y4) / 4) - 2 * ((y1 + 3 * y2 + 3 * y3 + y4) / 8) - y4) ^ 2 =
        ((3 * y3 - 2 * y4 - y1) / 4) ^ 2 := by ring
    have hy2 : (3 * ((y3 + y4) / 2) - 2 * y4 - (y1 + 3 * y2 + 3 * y3 + y4) / 8) ^ 2 =
        ((3 * (3 * y3 - 2 * y4 - y1) - (3 * y2 - 2 * y1 - y4)) / 8) ^ 2 := by ring
    rw [hx1, hx2, hy1, hy2]
    have hbx := sq_comb_le_max (3 * x3 - 2 * x4 - x1) (3 * x2 - 2 * x1 - x4)
    have hby := sq_comb_le_max (3 * y3 - 2 * y4 - y1) (3 * y2 - 2 * y1 - y4)
    rw [max_comm (((3 * x3 - 2 * x4 - x1) / 4) ^ 2), max_comm (((3 * y3 - 2 * y4 - y1) / 4) ^ 2),
      max_comm ((3 * x2 - 2 * x1 - x4) ^ 2), max_comm ((3 * y2 - 2 * y1 - y4) ^ 2)]
    linarith [hbx, hby]

theorem ceil_toNat_split_lt (c : Cubic) (h : ¬ flatness c < 10) :
    (⌈flatness (splitCurveAtT c (1 / 2)).1⌉).toNat < (⌈flatness c⌉).toNat ∧
    (⌈flatness (splitCurveAtT c (1 / 2)).2⌉).toNat < (⌈flatness c⌉).toNat := by
  have h10 : (10 : ℚ) ≤ flatness c := not_lt.mp h
  have hn : (10 : ℤ) ≤ ⌈flatness c⌉ := by
    have h1 : (⌈(10 : ℚ)⌉ : ℤ) ≤ ⌈flatness c⌉ := Int.ceil_le_ceil h10
    simpa using h1
  obtain ⟨hl, hr⟩ := flatness_split_le c
  have key : ∀ g : ℚ, g ≤ flatness c / 4 → (⌈g⌉).toNat < (⌈flatness c⌉).toNat := by
    intro g hg
    have h1 : ⌈g⌉ ≤ ⌈flatness c⌉ - 1 := by
      rw [Int.ceil_le]
      push_cast
      have h2 : flatness c ≤ (⌈flatness c⌉ : ℚ) := Int.le_ceil _
      have h3 : (10 : ℚ) ≤ (⌈flatness c⌉ : ℚ) := le_trans h10 h2
      linarith
    omega
  exact ⟨key _ hl, key _ hr⟩

theorem bezierFuel_mono : ∀ {m n : ℕ}, m ≤ n → ∀ {c : Cubic} {r : List Point},
    bezierFuel m c = some r → bezierFuel n c = some r := by
  intro m
  induction m with
  | zero => intro n _ c r hm; simp [bezierFuel] at hm
  | succ m ih =>
    intro n hmn c r hm
    obtain ⟨n', rfl⟩ : ∃ n', n = n' + 1 := ⟨n - 1, by omega⟩
    have hmn' : m ≤ n' := by omega
    simp only [bezierFuel] at hm ⊢
    by_cases hflat : flatness c < 10
    · simpa [hflat] using hm
    · simp only [if_neg hflat] at hm ⊢
      rcases hL : bezierFuel m (splitCurveAtT c (1 / 2)).1 with _ | l <;> rw [hL] at hm
      · simp at hm
      · rcases hR : bezierFuel m (splitCurveAtT c (1 / 2)).2 with _ | rr <;> rw [hR] at hm
        · simp at hm
        · rw [ih hmn' hL, ih hmn' hR]
          exact hm

theorem bezierFuel_isSome :
    ∀ (k : ℕ) (c : Cubic), (⌈flatness c⌉).toNat < k → (bezierFuel k c).isSome = true := by
  intro k
  induction k with
  | zero => intro c hc; omega
  | succ k ih =>
    intro c hc
    by_cases hflat : flatness c < 10
    · simp [bezierFuel, hflat]
    · obtain ⟨hl, hr⟩ := ceil_toNat_split_lt c hflat
      have h1 := ih (splitCurveAtT c (1 / 2)).1 (by omega)
      have h2 := ih (splitCurveAtT c (1 / 2)).2 (by omega)
      obtain ⟨l, hL⟩ := Option.isSome_iff_exists.mp h1
      obtain ⟨r, hR⟩ := Option.isSome_iff_exists.mp h2
      simp only [bezierFuel, if_neg hflat]
      rw [hL, hR]
      rfl

theorem bezierFuel_eq_some (k : ℕ) (c : Cubic) (h : (⌈flatness c⌉).toNat < k) :
    bezierFuel k c = some (bezierRecurse c) := by
  obtain ⟨r, hr⟩ := Option.isSome_iff_exists.mp
    (bezierFuel_isSome ((⌈flatness c⌉).toNat + 1) c (by omega))
  have hrec : bezierRecurse c = r := by
    simp [bezierRecurse, hr]
  rw [hrec]
  exact bezierFuel_mono (by omega) hr

theorem quadTs_step (t : ℚ) (h : t < 1) : quadTs t = t :: quadTs (t + 1 / 10) := by
  rw [quadTs]
  simp [h]

theorem quadTs_stop (t : ℚ) (h : ¬ t < 1) : quadTs t = [] := by
  rw [quadTs]
  simp [h]

theorem quadTs_zero :
    quadTs 0 = [0, 1 / 10, 1 / 5, 3 / 10, 2 / 5, 1 / 2, 3 / 5, 7 / 10, 4 / 5, 9 / 10] := by
  norm_num [quadTs_step, quadTs_stop]

theorem calcQuadraticAtT_zero (p0 cp pt : Point) : calcQuadraticAtT p0 cp pt 0 = p0 := by
  cases p0
  simp [calcQuadraticAtT]

theorem Transform.restore_empty (t : Transform) (h : t.stack = []) : t.restore = t := by
  obtain ⟨m, st⟩ := t
  simp only [Transform.stack] at h
  subst h
  rfl

/-! ## Theorems: the claims -/

/-- C1, counterexample: the claim says an out-of-bounds read returns `0` and
an out-of-bounds write leaves every pixel unchanged.  On the concrete 2×2
bitmap `bmpCE`, reading at `(-1, 0)` returns the value of pixel `(0,0)`
(`0xAABBCCDD ≠ 0`), and writing at `(-1, 0)` changes the buffer. -/
theorem bitmap_oob_claim_counterexample :
    bmpCE.getPixelRGBA (-1) 0 ≠ 0 ∧
    (bmpCE.setPixelRGBA (-1) 0 0x11223344).data ≠ bmpCE.data := by
  constructor
  · have h : bmpCE.getPixelRGBA (-1) 0 = 0xAABBCCDD := by
      norm_num [Bitmap.getPixelRGBA, Bitmap.calculateIndex, fromBytesBigEndian, bmpCE]
      decide
    rw [h]
    norm_num
  · norm_num [Bitmap.setPixelRGBA, Bitmap.calculateIndex, getBytesBigEndian, bmpCE]

/-- C1, amended: for every coordinate pair that is out of bounds after
flooring, `getPixelRGBA` returns the value of pixel `(0,0)` and
`setPixelRGBA` behaves exactly like a write to `(0,0)` (because
`calculateIndex` maps every out-of-range coordinate to index `0`); no
out-of-bounds access raises an error. -/
theorem bitmap_oob_maps_to_origin (bmp : Bitmap) (x y : ℚ) (rgba : ℕ)
    (h : ⌊x⌋ < 0 ∨ ⌊y⌋ < 0 ∨ bmp.width ≤ ⌊x⌋ ∨ bmp.height ≤ ⌊y⌋) :
    bmp.getPixelRGBA x y = bmp.getPixelRGBA 0 0 ∧
    bmp.setPixelRGBA x y rgba = bmp.setPixelRGBA 0 0 rgba := by
  have h1 : bmp.calculateIndex x y = 0 := by
    simp only [Bitmap.calculateIndex]
    rw [if_pos h]
  have h2 : bmp.calculateIndex 0 0 = 0 := by
    simp only [Bitmap.calculateIndex]
    split
    · rfl
    · simp
  constructor
  · simp only [Bitmap.getPixelRGBA, h1, h2]
  · simp only [Bitmap.setPixelRGBA, h1, h2]

/-- C1, witness for `bitmap_oob_maps_to_origin` at the concrete bitmap
`bmpCE`, coordinates `(-1, 0)` and colour `0x11223344`. -/
theorem bitmap_oob_maps_to_origin_witness :
    (⌊(-1 : ℚ)⌋ < 0 ∨ ⌊(0 : ℚ)⌋ < 0 ∨ bmpCE.width ≤ ⌊(-1 : ℚ)⌋ ∨
      bmpCE.height ≤ ⌊(0 : ℚ)⌋) ∧
    (bmpCE.getPixelRGBA (-1) 0 = bmpCE.getPixelRGBA 0 0 ∧
     bmpCE.setPixelRGBA (-1) 0 0x11223344 = bmpCE.setPixelRGBA 0 0 0x11223344) :=
  ⟨by norm_num, bitmap_oob_maps_to_origin bmpCE (-1) 0 0x11223344 (by norm_num)⟩

/-- C2, counterexample: the claim says a source with (global-alpha-scaled)
alpha `0` composites to exactly the destination, for all destinations
including those with zero alpha.  With global alpha `1`, destination
`0xFF000000` (red with zero alpha) and fully transparent source `0`, the
composite is `0`, not the destination. -/
theorem composite_transparent_over_zero_alpha_counterexample :
    composite 1 0xFF000000 0x00000000 = 0 ∧ (0 : ℕ) ≠ 0xFF000000 := by
  constructor
  · norm_num [composite, compit, getBytesBigEndian, fromBytesBigEndian]
  · norm_num

/-- C2, amended: with the global alpha at most `1` (the setter clamps it to
`[0,1]`) and a 32-bit source pixel: a source whose global-alpha-scaled alpha
equals `1` composites to exactly the source, for every destination value;
and a source whose scaled alpha equals `0` over a destination whose alpha
byte is zero composites to transparent black (`0`), not the destination.
Both identities are exact under IEEE evaluation of the source as well (the
opaque branch evaluates each channel as `(b/255)*1/1*255 = b` exactly; the
zero-alpha branch is the `0/0 → NaN →` byte-`0` path).  No exactness is
claimed for a transparent source over a destination with non-zero alpha:
there the source computes `(cb*ab)/ab*255` in floating point, which the
bitwise repack can truncate one below the destination byte (destination
`0x03000003` composites to `0x02000002`), so the destination is only
approximately restored and the exact-rational model is not faithful on that
branch (see `compit`). -/
theorem composite_alpha_identities (ga : ℚ) (old_pixel new_pixel : ℕ)
    (hga1 : ga ≤ 1) (hnew : new_pixel < 2 ^ 32) :
    (((new_pixel % 256 : ℕ) : ℚ) / 255 * ga = 1 →
        composite ga old_pixel new_pixel = new_pixel) ∧
    (((new_pixel % 256 : ℕ) : ℚ) / 255 * ga = 0 → old_pixel % 256 = 0 →
        composite ga old_pixel new_pixel = 0) := by
  constructor
  · intro h1
    -- a fully (global-alpha-scaled) opaque source forces alpha byte 255 and ga = 1
    have hn3 : new_pixel % 256 ≤ 255 := by omega
    have hmul : ((new_pixel % 256 : ℕ) : ℚ) * ga = 255 := by
      field_simp at h1; linarith [h1]
    have hga : ga = 1 ∧ (new_pixel % 256 : ℕ) = 255 := by
      have hle : ((new_pixel % 256 : ℕ) : ℚ) ≤ 255 := by exact_mod_cast hn3
      have h2 : ((new_pixel % 256 : ℕ) : ℚ) * ga ≤ ((new_pixel % 256 : ℕ) : ℚ) := by
        nlinarith [Nat.cast_nonneg (α := ℚ) (new_pixel % 256)]
      have h3 : ((new_pixel % 256 : ℕ) : ℚ) = 255 := by linarith
      have h4 : (new_pixel % 256 : ℕ) = 255 := by exact_mod_cast h3
      refine ⟨?_, h4⟩
      rw [h4] at hmul; push_cast at hmul; linarith
    obtain ⟨hga, h255⟩ := hga
    simp only [composite, getBytesBigEndian, List.getD, hga, h255]
    norm_num
    simp only [compit_srcA_one]
    rw [div_mul_cancel₀ _ (by norm_num : (255 : ℚ) ≠ 0),
      div_mul_cancel₀ _ (by norm_num : (255 : ℚ) ≠ 0),
      div_mul_cancel₀ _ (by norm_num : (255 : ℚ) ≠ 0)]
    rw [one_mul]
    simp only [fromBytesBigEndian, Int.floor_natCast, Int.toNat_natCast]
    norm_num
    omega
  · intro h0 hzero
    have hb3 : ((old_pixel % 256 : ℕ) : ℚ) = 0 := by exact_mod_cast hzero
    simp only [composite, getBytesBigEndian, List.getD]
    norm_num
    rw [h0, hb3]
    norm_num [compit, fromBytesBigEndian]

/-- C2, witness for `composite_alpha_identities`: with global alpha `1`,
destination `0xAABBCC11` and fully opaque source `0x123456FF`, compositing
returns exactly the source. -/
theorem composite_alpha_identities_witness :
    (1 : ℚ) ≤ 1 ∧ (0x123456FF : ℕ) < 2 ^ 32 ∧
    composite 1 0xAABBCC11 0x123456FF = 0x123456FF :=
  ⟨le_refl 1, by norm_num,
    (composite_alpha_identities 1 0xAABBCC11 0x123456FF (le_refl 1)
      (by norm_num)).1 (by norm_num)⟩

/-- C3: every point stored by `moveTo`, `lineTo`, `quadraticCurveTo` and
`bezierCurveTo` is already mapped through the transform current at the
moment of insertion (and the command list grows by exactly that one
command, leaving the stored commands unchanged), while `translate`,
`rotate`, `scale`, `save` and `restore` leave the stored path untouched. -/
theorem path_points_transformed_at_insertion (c : Context)
    (cp1x cp1y cp2x cp2y x y dx dy cosA sinA sx sy : ℚ) :
    (c.moveTo x y).path = c.path ++ [.move (c.transform.transformPoint ⟨x, y⟩)] ∧
    (c.lineTo x y).path = c.path ++ [.line (some (c.transform.transformPoint ⟨x, y⟩))] ∧
    (c.quadraticCurveTo cp1x cp1y x y).path =
      c.path ++ [.quadratic (c.transform.transformPoint ⟨cp1x, cp1y⟩)
        (c.transform.transformPoint ⟨x, y⟩)] ∧
    (c.bezierCurveTo cp1x cp1y cp2x cp2y x y).path =
      c.path ++ [.bezier (c.transform.transformPoint ⟨cp1x, cp1y⟩)
        (c.transform.transformPoint ⟨cp2x, cp2y⟩) (c.transform.transformPoint ⟨x, y⟩)] ∧
    (c.translate dx dy).path = c.path ∧
    (c.rotate cosA sinA).path = c.path ∧
    (c.scale sx sy).path = c.path ∧
    c.save.path = c.path ∧
    c.restore.path = c.path :=
  ⟨rfl, rfl, rfl, rfl, rfl, rfl, rfl, rfl, rfl⟩

/-- C4: with a clip boundary set, a point passes the clip test exactly when
the number of clip-segment intersections with the horizontal line at `y`
whose intersection x-coordinate is strictly less than `x` is odd; with no
clip boundary set every point passes; and the `Context` method reads exactly
the `_clip` field. -/
theorem pixelInsideClip_even_odd (x y : ℚ) :
    (∀ lines : List Line,
      (pixelInsideClip (some lines) x y = true ↔ Odd (clipCrossingsLeft lines x y))) ∧
    pixelInsideClip none x y = true ∧
    ∀ c : Context, c.pixelInsideClip x y = pixelInsideClip c._clip x y := by
  refine ⟨fun lines => ?_, rfl, fun c => rfl⟩
  simp only [pixelInsideClip, clipCrossingsLeft, calcSortedIntersections,
    decide_eq_true_eq]
  rw [← List.countP_eq_length_filter,
    (List.mergeSort_perm _ (fun a b => decide (a ≤ b))).countP_eq, Nat.odd_iff]
  omega

/-- C5: in the exact-rational model of JavaScript numbers, flattening a
quadratic command emits exactly 10 segments, one per parameter value
`t = 0, 0.1, …, 0.9`, each endpoint given by the standard quadratic Bezier
formula `calcQuadraticAtT` (segment `k` runs from the point at the previous
`t` — the current point for `k = 0`, which equals the curve point at
`t = 0` — to the point at `t = k/10`); and `pathToLines` on a
move-then-quadratic path produces exactly these segments. -/
theorem quad_flatten_ten_segments (p0 cp pt : Point) :
    (quadFlatten p0 cp pt).2 =
      (List.range 10).map (fun k =>
        ⟨calcQuadraticAtT p0 cp pt (if k = 0 then 0 else ((k : ℚ) - 1) / 10),
         calcQuadraticAtT p0 cp pt ((k : ℚ) / 10)⟩) ∧
    ((quadFlatten p0 cp pt).2).length = 10 ∧
    pathToLines [.move p0, .quadratic cp pt] = (quadFlatten p0 cp pt).2 := by
  have hmain : (quadFlatten p0 cp pt).2 =
      (List.range 10).map (fun k =>
        ⟨calcQuadraticAtT p0 cp pt (if k = 0 then 0 else ((k : ℚ) - 1) / 10),
         calcQuadraticAtT p0 cp pt ((k : ℚ) / 10)⟩) := by
    rw [quadFlatten, quadTs_zero]
    simp only [List.foldl]
    simp [List.range_succ, calcQuadraticAtT_zero]
    norm_num
  refine ⟨hmain, ?_, ?_⟩
  · rw [hmain]; simp
  · simp [pathToLines, pathToLinesStep]

/-- C6: the recursive cubic flattening terminates for every (finite) cubic:
`bezierToLines` satisfies the source's recursion equation — a curve whose
flatness is below the threshold `10` is replaced by its chord, any other
curve is split at `t = 1/2` and both halves are flattened recursively — and
the recursion-depth budget `⌈flatness curve⌉ + 1` always reaches the flat
case (`bezierFuel` returns `some`, never the out-of-budget `none`). -/
theorem bezier_flatten_terminates (curve : Cubic) :
    bezierToLines curve =
      (if flatness curve < 10 then [curve.p1, curve.p4]
       else bezierToLines (splitCurveAtT curve (1 / 2)).1 ++
         bezierToLines (splitCurveAtT curve (1 / 2)).2) ∧
    bezierFuel ((⌈flatness curve⌉).toNat + 1) curve = some (bezierToLines curve) := by
  constructor
  · by_cases h : flatness curve < 10
    · rw [if_pos h]
      simp [bezierToLines, bezierRecurse, bezierFuel, h]
    · rw [if_neg h]
      obtain ⟨hl, hr⟩ := ceil_toNat_split_lt curve h
      have hL := bezierFuel_eq_some ((⌈flatness curve⌉).toNat) _ hl
      have hR := bezierFuel_eq_some ((⌈flatness curve⌉).toNat) _ hr
      show (bezierFuel ((⌈flatness curve⌉).toNat + 1) curve).getD [curve.p1, curve.p4] = _
      simp only [bezierFuel, if_neg h]
      rw [hL, hR]
      rfl
  · exact bezierFuel_eq_some _ _ (by omega)

/-- C7, counterexample: the claim says `closePath` is a no-op when no start
point has been set.  On the freshly constructed context `ctxFresh` (empty
path, `pathstart = none`), `closePath` changes the path. -/
theorem closePath_no_start_counterexample :
    ctxFresh.closePath.path ≠ ctxFresh.path ∧ ctxFresh.pathstart = none := by
  constructor
  · simp [ctxFresh, Context.closePath]
  · rfl

/-- C7, amended: `closePath` always appends exactly one `LINE` command whose
target is the remembered start point — the undefined point (`none`) when no
start point has been set, and the transformed point of the preceding
`moveTo` otherwise. -/
theorem closePath_appends_line_to_start (c : Context) (x y : ℚ) :
    c.closePath.path = c.path ++ [.line c.pathstart] ∧
    (c.moveTo x y).closePath.path =
      c.path ++ [.move (c.transform.transformPoint ⟨x, y⟩),
        .line (some (c.transform.transformPoint ⟨x, y⟩))] := by
  refine ⟨rfl, ?_⟩
  simp [Context.closePath, Context.moveTo, Context._moveTo]

/-- C8, counterexample: the claim says the gradient colour is the
channel-wise interpolation of the first two stops.  At the centre of
`gradCE` (so `t = 0`), the channel-wise interpolation is the first stop's
colour `0x00000000`, but `colorAt` returns `0x000000FF = 255`: the alpha
channel is not interpolated. -/
theorem radial_gradient_alpha_counterexample :
    gradCE.colorAt 0 0 = 255 ∧ radialColorAtClaim gradCE 0 0 = 0 := by
  have hdist : pointDistance 0 0 0 0 = 0 := by
    simp [pointDistance]
  have hb0 : getBytesBigEndian 0x00000000 = [0, 0, 0, 0] := by
    norm_num [getBytesBigEndian]
  have hb1 : getBytesBigEndian 0xFFFFFFFF = [255, 255, 255, 255] := by
    norm_num [getBytesBigEndian]
  have hf255 := fromBytesBigEndian_natCast (α := ℝ) 0 0 0 255
  have hf0 := fromBytesBigEndian_natCast (α := ℝ) 0 0 0 0
  norm_num at hf255 hf0
  constructor
  · simp [RadialGradientM.colorAt, gradCE, hdist, lerpStops, clamp, lerp, hb0, hb1]
    norm_num
    convert hf255 using 2
  · simp [radialColorAtClaim, gradCE, hdist, clamp, lerp, hb0, hb1]
    norm_num
    convert hf0 using 2

/-- C8, amended: for every radial gradient and query point, the colour is
obtained by taking the distance from the centre, dividing by the fixed
constant 10, clamping to `[0,1]`, and linearly interpolating the first two
colour stops channel-wise in `[0,1]` space before conversion back to 8-bit —
for the red, green and blue channels; the resulting alpha channel is always
the constant 255, not an interpolated value. -/
theorem radial_gradient_amended (g : RadialGradientM) (x y : ℚ) :
    g.colorAt x y = radialColorAtAmended g x y := by
  simp [RadialGradientM.colorAt, radialColorAtAmended, lerpStops, getBytesBigEndian]

/-- C9: any sequence of `save`/`restore` calls changes none of the fill
style (colour and text), stroke style (colour and text), line width, global
alpha, anti-aliasing flag, font, text alignment fields, path, clip boundary,
path start or bitmap of the context — only the transform; and `restore`
with an empty saved-transform stack changes nothing at all. -/
theorem save_restore_only_transform (c : Context) (ops : List SaveRestoreOp) :
    ((ops.foldl applySaveRestore c)._fillColor = c._fillColor ∧
     (ops.foldl applySaveRestore c)._fillStyle_text = c._fillStyle_text ∧
     (ops.foldl applySaveRestore c)._strokeColor = c._strokeColor ∧
     (ops.foldl applySaveRestore c)._strokeStyle_text = c._strokeStyle_text ∧
     (ops.foldl applySaveRestore c)._lineWidth = c._lineWidth ∧
     (ops.foldl applySaveRestore c)._globalAlpha = c._globalAlpha ∧
     (ops.foldl applySaveRestore c).imageSmoothingEnabled = c.imageSmoothingEnabled ∧
     (ops.foldl applySaveRestore c)._font = c._font ∧
     (ops.foldl applySaveRestore c).textAlign = c.textAlign ∧
     (ops.foldl applySaveRestore c).textBaseline = c.textBaseline ∧
     (ops.foldl applySaveRestore c).path = c.path ∧
     (ops.foldl applySaveRestore c)._clip = c._clip ∧
     (ops.foldl applySaveRestore c).pathstart = c.pathstart ∧
     (ops.foldl applySaveRestore c).bitmap = c.bitmap) ∧
    (c.transform.stack = [] → c.restore = c) := by
  constructor
  · induction ops generalizing c with
    | nil =>
      exact ⟨rfl, rfl, rfl, rfl, rfl, rfl, rfl, rfl, rfl, rfl, rfl, rfl, rfl, rfl⟩
    | cons op ops ih =>
      cases op
      · exact ih c.save
      · exact ih c.restore
  · intro h
    show { c with transform := c.transform.restore } = c
    rw [Transform.restore_empty _ h]

/-- C9, witness for `save_restore_only_transform` at the concrete context
`ctxFresh`, whose saved-transform stack is empty. -/
theorem save_restore_only_transform_witness :
    ctxFresh.transform.stack = [] ∧ ctxFresh.restore = ctxFresh :=
  ⟨rfl, (save_restore_only_transform ctxFresh []).2 rfl⟩

/-- C10: assigning a gradient to `fillStyle` stores the gradient in
`_fillColor` but leaves `_fillStyle_text` unchanged, so after setting
`fillStyle` to a string `s` and then to a gradient, reading `fillStyle`
still returns `s`. -/
theorem fillStyle_gradient_keeps_text (c : Context) (s : String) (g : CanvasGradientVal) :
    ((c.setFillStyle (.str s)).setFillStyle (.grad g))._fillColor = .gradient g ∧
    ((c.setFillStyle (.str s)).setFillStyle (.grad g)).fillStyle = s :=
  ⟨rfl, rfl⟩

end PureImage
